import Mathlib

/-!
A verification development for the photo-sync-server repository: the
ingestion, deduplication and indexing core (session tracker, duplicate
detector, photo index, EXIF comment scanner, sync handlers) is embedded
shallowly and the spec-level claims about it are settled as theorems.

Conventions of the embedding:
* Go strings that are inspected byte-by-byte or rune-by-rune (EXIF payloads,
  counter identifiers) are `List Nat`; opaque Go strings (paths, hashes,
  tokens, messages) are `String`.
* `time.Time` values are wall-clock UTC instants at second granularity: a
  civil `DateTime` record for photo dates (which the code formats and parses
  as RFC3339, a format without fractional seconds), and abstract `Int`
  instants for session bookkeeping timestamps.
* Machine integers are `Int` (Go `int`/`int64` are 64-bit; no counter in the
  claims' scope can overflow).
* External effects (sha256, the filesystem, the clock) enter through
  explicit parameters: a hash function, a save-file result, an
  index-save-succeeded flag, and `now` values.
-/

namespace PhotoSync

/-- A Go rune/byte string, as the sequence of code points / byte values. -/
abbrev RuneStr := List Nat

/-! ## models/session.go : Session, progress, estimated time remaining -/

/-- models.SyncStatus. -/
inductive SyncStatus where
  | waiting
  | ready
  | syncing
  | completed
  | error
deriving DecidableEq, Repr

/-- models.Session. -/
structure Session where
  token : String
  status : SyncStatus
  total : Int
  uploaded : Int
  skipped : Int
  startTime : Int
  lastUpdate : Int
  currentFile : String
  errors : List String
deriving DecidableEq, Repr

/-- models.NewSession: fresh session in `waiting` with zero counters. -/
def NewSession (token : String) (now : Int) : Session :=
  { token := token, status := .waiting, total := 0, uploaded := 0, skipped := 0,
    startTime := now, lastUpdate := now, currentFile := "", errors := [] }

/-- models.Session.GetProgress: `0` when `total == 0`, else
`(uploaded+skipped)/total*100` (float64 arithmetic modelled over `ℚ`). -/
def GetProgress (s : Session) : ℚ :=
  if s.total = 0 then 0
  else ((s.uploaded + s.skipped : Int) : ℚ) / (s.total : ℚ) * 100

/-- Go's float64-to-int conversion: truncation toward zero. -/
def intTrunc (q : ℚ) : Int :=
  if 0 ≤ q then q.floor else q.ceil

/-- models.Session.GetEstimatedTimeRemaining; `elapsed` models
`time.Since(s.StartTime).Seconds()`. -/
def GetEstimatedTimeRemaining (s : Session) (elapsed : ℚ) : Int :=
  if s.uploaded = 0 then 0
  else
    intTrunc (((s.total - s.uploaded - s.skipped : Int) : ℚ) *
      (elapsed / ((s.uploaded + s.skipped : Int) : ℚ)))

/-! ## storage/session_store.go : the session map -/

/-- storage.SessionStore's session map, as an association list. -/
abbrev SessionMap := List (String × Session)

/-- Map lookup (first binding wins; `storeCreate` keeps keys unique). -/
def storeGet : SessionMap → String → Option Session
  | [], _ => none
  | (t, s) :: rest, tok => if t = tok then some s else storeGet rest tok

/-- storage.SessionStore.Create. -/
def storeCreate (m : SessionMap) (token : String) (now : Int) : SessionMap :=
  (token, NewSession token now) :: m

/-- storage.SessionStore.Update: applies the updater then `session.Update()`
(which stamps `LastUpdate`); returns `false` leaving the map unchanged when
the token is unknown. -/
def storeUpdate (m : SessionMap) (token : String) (f : Session → Session)
    (now : Int) : SessionMap × Bool :=
  match storeGet m token with
  | none => (m, false)
  | some _ =>
    (m.map (fun p => if p.1 = token then (p.1, { f p.2 with lastUpdate := now }) else p),
      true)

/-- storage.SessionStore.Delete. -/
def storeDelete (m : SessionMap) (token : String) : SessionMap :=
  m.filter (fun p => p.1 ≠ token)

/-! ## Civil date-times (the repo's `time.Time` usage) -/

/-- A wall-clock UTC date-time at second granularity: exactly the precision
RFC3339 (without fractional seconds) persists. -/
structure DateTime where
  year : Int
  month : Int
  day : Int
  hour : Int
  minute : Int
  second : Int
deriving DecidableEq, Repr

/-- Days since 1970-01-01 of a civil date (Gregorian; standard era-based
conversion).  Used only to compare instants, as `time.Time.Before` and
`absTimeDiff` do. -/
def daysFromCivil (y m d : Int) : Int :=
  let y' := if m ≤ 2 then y - 1 else y
  let era := y' / 400
  let yoe := y' - era * 400
  let doy := (153 * (if 2 < m then m - 3 else m + 9) + 2) / 5 + d - 1
  let doe := yoe * 365 + yoe / 4 - yoe / 100 + doy
  era * 146097 + doe - 719468

/-- Seconds since the Unix epoch of a `DateTime`. -/
def dateToSecs (dt : DateTime) : Int :=
  daysFromCivil dt.year dt.month dt.day * 86400 +
    dt.hour * 3600 + dt.minute * 60 + dt.second

/-- time.Time.Before on the modelled instants. -/
def dateBefore (a b : DateTime) : Bool :=
  dateToSecs a < dateToSecs b

/-- storage.absTimeDiff, in seconds. -/
def absTimeDiff (a b : DateTime) : Int :=
  if dateToSecs a - dateToSecs b < 0 then dateToSecs b - dateToSecs a
  else dateToSecs a - dateToSecs b

/-! ## storage/indexer.go : NormalizeCounterNumber -/

/-- unicode.ToLower restricted to the scripts the indexer's alphabet can
mention: ASCII `A–Z` and Cyrillic `А–Я`/`Ё` map down; every other code point
relevant here is already caseless or lowercase and is left unchanged. -/
def toLowerRune (c : Nat) : Nat :=
  if 65 ≤ c ∧ c ≤ 90 then c + 32
  else if 0x410 ≤ c ∧ c ≤ 0x42F then c + 32
  else if c = 0x401 then 0x451
  else c

/-- The rune class NormalizeCounterNumber keeps: ASCII `a–z`, `0–9`,
Cyrillic `а–я`, `ё`. -/
def isAllowedRune (c : Nat) : Bool :=
  (97 ≤ c ∧ c ≤ 122) ∨ (48 ≤ c ∧ c ≤ 57) ∨ (0x430 ≤ c ∧ c ≤ 0x44F) ∨ c = 0x451

/-- storage.NormalizeCounterNumber: lower-case, then drop every rune outside
the allowed class. -/
def NormalizeCounterNumber (s : RuneStr) : RuneStr :=
  (s.map toLowerRune).filter isAllowedRune

/-! ## storage/indexer.go : the photo index -/

/-- storage.PhotoInfo. -/
structure PhotoInfo where
  path : String
  fullPath : String
  date : DateTime
  size : Int
  hash : String
  userComment : RuneStr
deriving DecidableEq, Repr

/-- The indexer's in-memory map, normalized counter → bucket. -/
abbrev Index := List (RuneStr × List PhotoInfo)

/-- Map read; a missing key reads as the empty bucket (Go's nil slice). -/
def indexGet : Index → RuneStr → List PhotoInfo
  | [], _ => []
  | (k, v) :: rest, key => if k = key then v else indexGet rest key

/-- Map write. -/
def indexSet : Index → RuneStr → List PhotoInfo → Index
  | [], key, v => [(key, v)]
  | (k, w) :: rest, key, v =>
    if k = key then (key, v) :: rest else (k, w) :: indexSet rest key v

/-- One pass of AddPhoto's nested-loop sort: given the value currently at
the outer position and the tail, repeatedly swap the outer slot with any
strictly later date met while walking right; returns the value left in the
outer slot and the rewritten tail. -/
def innerPass (x : PhotoInfo) : List PhotoInfo → PhotoInfo × List PhotoInfo
  | [] => (x, [])
  | y :: ys =>
    if dateBefore x.date y.date then
      let r := innerPass y ys
      (r.1, x :: r.2)
    else
      let r := innerPass x ys
      (r.1, y :: r.2)

/-- AddPhoto's in-place exchange sort (newest date first), as the
sequence of inner passes over ever-shorter suffixes. -/
def exchangeSort : List PhotoInfo → List PhotoInfo
  | [] => []
  | x :: xs =>
    (innerPass x xs).1 :: exchangeSort (innerPass x xs).2
termination_by l => l.length
decreasing_by
  have hl : ∀ (x : PhotoInfo) (l : List PhotoInfo), (innerPass x l).2.length = l.length := by
    intro x l
    induction l generalizing x with
    | nil => simp [innerPass]
    | cons y ys ih =>
      simp only [innerPass]
      split <;> simp [ih]
  simp [hl]

/-- storage.Indexer.AddPhoto's effect: normalize the counter, no-op if the
relative path is already in the bucket (returning nil without saving),
otherwise append the record, exchange-sort the bucket by date descending and
persist; `saveOk` tells whether the `saveIndex` disk write succeeds, and the
returned `Option String` is AddPhoto's error result. -/
def AddPhoto (idx : Index) (saveOk : Bool) (counterNumber : RuneStr)
    (relPath fullPath : String) (date : DateTime) (size : Int)
    (hash : String) (userComment : RuneStr) : Index × Option String :=
  let normalized := NormalizeCounterNumber counterNumber
  let bucket := indexGet idx normalized
  if bucket.any (fun p => p.path = relPath) then (idx, none)
  else
    let photo : PhotoInfo :=
      { path := relPath, fullPath := fullPath, date := date, size := size,
        hash := hash, userComment := userComment }
    let sorted := exchangeSort (bucket ++ [photo])
    (indexSet idx normalized sorted,
      if saveOk then none else some "failed to save index")

/-- storage.Indexer.GetPhotosByCounter: reads normalize their argument. -/
def GetPhotosByCounter (idx : Index) (counterNumber : RuneStr) : List PhotoInfo :=
  indexGet idx (NormalizeCounterNumber counterNumber)

/-- storage.Indexer.GetAllCounters. -/
def GetAllCounters (idx : Index) : List RuneStr :=
  idx.map (fun p => p.1)

/-! ## storage/duplicate_check.go : the two-tier duplicate detector -/

/-- storage.FileHashInfo. -/
structure FileHashInfo where
  hash : String
  size : Int
  date : DateTime
  path : String
deriving DecidableEq, Repr

/-- storage.DuplicateCheck's hash table, as an association list whose most
recent binding for a hash shadows older ones (Go map overwrite). -/
abbrev HashDB := List (String × FileHashInfo)

/-- Hash-table lookup. -/
def hashLookup : HashDB → String → Option FileHashInfo
  | [], _ => none
  | (h, i) :: rest, key => if h = key then some i else hashLookup rest key

/-- storage.DuplicateCheck.AddHash: unconditional insert/overwrite. -/
def AddHash (db : HashDB) (fileHash : String) (size : Int) (date : DateTime)
    (path : String) : HashDB :=
  (fileHash, { hash := fileHash, size := size, date := date, path := path }) :: db

/-- The rune string "unknown". -/
def unknownRunes : RuneStr := [117, 110, 107, 110, 111, 119, 110]

/-- Tier 2's bucket walk: first photo whose timestamp is within one second
of `dateTaken` and whose stored hash equals the new hash. -/
def findCounterDateDup (fileHash : String) (dateTaken : DateTime) :
    List PhotoInfo → Option FileHashInfo
  | [] => none
  | p :: rest =>
    if absTimeDiff p.date dateTaken < 1 ∧ p.hash = fileHash then
      some { hash := p.hash, size := p.size, date := p.date, path := p.path }
    else findCounterDateDup fileHash dateTaken rest

/-- storage.DuplicateCheck.CheckDuplicate: tier 1 is the hash-table lookup
(reason `"hash"`); tier 2, attempted only on a tier-1 miss when the counter
is non-empty and not `"unknown"`, walks the normalized counter's bucket
(reason `"counter_and_date"`).  The `size` argument is accepted and unused,
as in the source. -/
def CheckDuplicate (db : HashDB) (fileHash : String) (_size : Int)
    (counterNumber : RuneStr) (dateTaken : DateTime) (idx : Index) :
    Option FileHashInfo × String :=
  match hashLookup db fileHash with
  | some info => (some info, "hash")
  | none =>
    if counterNumber ≠ [] ∧ counterNumber ≠ unknownRunes then
      let normalizedCounter := NormalizeCounterNumber counterNumber
      let photos := GetPhotosByCounter idx normalizedCounter
      match findCounterDateDup fileHash dateTaken photos with
      | some info => (some info, "counter_and_date")
      | none => (none, "")
    else (none, "")

/-! ## RFC3339 formatting and parsing (time.Time.Format / time.Parse)

The repository persists dates with `Format(time.RFC3339)` and reads them
back with `time.Parse(time.RFC3339, ...)`; both are Go standard library
functions, modelled here on the UTC profile the index traffics in:
`YYYY-MM-DDTHH:MM:SSZ`. -/

/-- Is the byte/rune an ASCII digit. -/
def isDigitByte (b : Nat) : Bool := 48 ≤ b ∧ b ≤ 57

/-- Two zero-padded decimal digits. -/
def pad2 (n : Int) : RuneStr := [48 + n.toNat / 10 % 10, 48 + n.toNat % 10]

/-- Four zero-padded decimal digits. -/
def pad4 (n : Int) : RuneStr :=
  [48 + n.toNat / 1000 % 10, 48 + n.toNat / 100 % 10,
   48 + n.toNat / 10 % 10, 48 + n.toNat % 10]

/-- time.Time.Format(time.RFC3339) for a UTC wall-clock time. -/
def formatRFC3339 (dt : DateTime) : RuneStr :=
  pad4 dt.year ++ [45] ++ pad2 dt.month ++ [45] ++ pad2 dt.day ++ [84] ++
    pad2 dt.hour ++ [58] ++ pad2 dt.minute ++ [58] ++ pad2 dt.second ++ [90]

/-- Gregorian leap-year rule. -/
def isLeap (y : Int) : Bool := (y % 4 = 0 ∧ y % 100 ≠ 0) ∨ y % 400 = 0

/-- Days in a month (with the leap rule), used by time.Parse's validation. -/
def daysInMonth (y m : Int) : Int :=
  if m = 2 then (if isLeap y then 29 else 28)
  else if m = 4 ∨ m = 6 ∨ m = 9 ∨ m = 11 then 30
  else 31

/-- time.Parse(time.RFC3339, ...) on the UTC profile: structure, digits and
component ranges are validated; anything else is a parse error (`none`). -/
def parseRFC3339 (s : RuneStr) : Option DateTime :=
  match s with
  | [y1, y2, y3, y4, c1, m1, m2, c2, d1, d2, c3, h1, h2, c4, i1, i2, c5, s1, s2, c6] =>
    if c1 = 45 ∧ c2 = 45 ∧ c3 = 84 ∧ c4 = 58 ∧ c5 = 58 ∧ c6 = 90 ∧
        isDigitByte y1 ∧ isDigitByte y2 ∧ isDigitByte y3 ∧ isDigitByte y4 ∧
        isDigitByte m1 ∧ isDigitByte m2 ∧ isDigitByte d1 ∧ isDigitByte d2 ∧
        isDigitByte h1 ∧ isDigitByte h2 ∧ isDigitByte i1 ∧ isDigitByte i2 ∧
        isDigitByte s1 ∧ isDigitByte s2 then
      let y : Int := ((y1 - 48) * 1000 + (y2 - 48) * 100 + (y3 - 48) * 10 + (y4 - 48) : Nat)
      let mo : Int := ((m1 - 48) * 10 + (m2 - 48) : Nat)
      let d : Int := ((d1 - 48) * 10 + (d2 - 48) : Nat)
      let h : Int := ((h1 - 48) * 10 + (h2 - 48) : Nat)
      let mi : Int := ((i1 - 48) * 10 + (i2 - 48) : Nat)
      let se : Int := ((s1 - 48) * 10 + (s2 - 48) : Nat)
      if 1 ≤ mo ∧ mo ≤ 12 ∧ 1 ≤ d ∧ d ≤ daysInMonth y mo ∧
          h ≤ 23 ∧ mi ≤ 59 ∧ se ≤ 59 then
        some { year := y, month := mo, day := d, hour := h, minute := mi, second := se }
      else none
    else none
  | _ => none

/-- The dates the claims call "well-formed RFC3339-representable": a valid
civil date-time in the four-digit-year range. -/
def ValidDate (dt : DateTime) : Prop :=
  0 ≤ dt.year ∧ dt.year ≤ 9999 ∧ 1 ≤ dt.month ∧ dt.month ≤ 12 ∧
    1 ≤ dt.day ∧ dt.day ≤ daysInMonth dt.year dt.month ∧
    0 ≤ dt.hour ∧ dt.hour ≤ 23 ∧ 0 ≤ dt.minute ∧ dt.minute ≤ 59 ∧
    0 ≤ dt.second ∧ dt.second ≤ 59

instance (dt : DateTime) : Decidable (ValidDate dt) := by
  unfold ValidDate; infer_instance

/-! ## storage/indexer.go : saveIndex / loadIndex

`saveIndex` marshals the index to one JSON document and `loadIndex`
unmarshals it; `encoding/json` is modelled as the identity on the structured
document (JSON numbers are taken exactly), so what remains is exactly the
repository's own work: field selection, the `omitempty` comment, RFC3339
date formatting on save, and RFC3339 parsing with a fall-back to `now` on
load. -/

/-- One record of the persisted JSON document. -/
structure SavedPhoto where
  path : String
  fullPath : String
  date : RuneStr
  size : Int
  hash : String
  userComment : Option RuneStr
deriving DecidableEq, Repr

/-- saveIndex's per-photo map: the date becomes an RFC3339 string and the
`userComment` key is written only when non-empty. -/
def savePhoto (p : PhotoInfo) : SavedPhoto :=
  { path := p.path, fullPath := p.fullPath, date := formatRFC3339 p.date,
    size := p.size, hash := p.hash,
    userComment := if p.userComment = [] then none else some p.userComment }

/-- loadIndex's per-photo conversion: missing strings read as `""`; a date
that fails to parse is silently replaced with the current time. -/
def loadPhoto (now : DateTime) (sp : SavedPhoto) : PhotoInfo :=
  { path := sp.path, fullPath := sp.fullPath,
    date := (parseRFC3339 sp.date).getD now,
    size := sp.size, hash := sp.hash,
    userComment := sp.userComment.getD [] }

/-- The persisted document produced by saveIndex. -/
def saveIndexData (idx : Index) : List (RuneStr × List SavedPhoto) :=
  idx.map (fun b => (b.1, b.2.map savePhoto))

/-- The index rebuilt by loadIndex. -/
def loadIndexData (now : DateTime) (data : List (RuneStr × List SavedPhoto)) : Index :=
  data.map (fun b => (b.1, b.2.map (loadPhoto now)))

/-! ## handlers (part_000) : the EXIF comment scanner -/

/-- handlers.isAlphanumeric (a byte predicate). -/
def isAlphanumericB (b : Nat) : Bool :=
  (97 ≤ b ∧ b ≤ 122) ∨ (65 ≤ b ∧ b ≤ 90) ∨ (48 ≤ b ∧ b ≤ 57)

/-- handlers.isCyrillic (the source's simplified byte test). -/
def isCyrillicB (b : Nat) : Bool :=
  (0xD0 ≤ b ∧ b ≤ 0xDF) ∨ (0xE0 ≤ b ∧ b ≤ 0xEF)

/-- A byte that may continue a run: ASCII alphanumeric or Cyrillic-range. -/
def isRunByte (b : Nat) : Bool := isAlphanumericB b || isCyrillicB b

/-- handlers.containsDigit.  (Go iterates runes, but a digit rune is a digit
byte and digit bytes never occur inside multi-byte runes, so the byte-level
test agrees.) -/
def containsDigitB (s : List Nat) : Bool := s.any isDigitByte

/-- handlers.isOnlyAlphanumeric on a run candidate.  (Rune-level in Go; on
strings made of run bytes the byte-level test agrees, since any non-ASCII
run byte decodes to a non-alphanumeric rune.) -/
def isOnlyAlphanumericB (s : List Nat) : Bool := s.all isAlphanumericB

/-- findUserComment's first loop (`i < len-10`, runs started at an ASCII
alphanumeric, extended over run bytes, returned when length ≥ 10 with a
digit), written on the suffix starting at the loop index: the loop guard
`i < len(s)-10` is `suffix.length > 10`, and the `i = j; i++` jump is
dropping the run plus one byte. -/
def scanLong : List Nat → List Nat
  | [] => []
  | b :: rest =>
    if (b :: rest).length > 10 then
      if isAlphanumericB b then
        let r := (b :: rest).takeWhile isRunByte
        if 10 ≤ r.length ∧ containsDigitB r then r
        else scanLong ((b :: rest).drop (r.length + 1))
      else scanLong rest
    else []
termination_by s => s.length
decreasing_by
  · simp only [List.length_drop]
    simp only [List.length_cons]
    omega
  · simp

/-- findUserComment's second loop (`i < len-8`, window `8 ≤ len < 10`, pure
ASCII alphanumeric, contains a digit), same suffix representation. -/
def scanShort : List Nat → List Nat
  | [] => []
  | b :: rest =>
    if (b :: rest).length > 8 then
      if isAlphanumericB b then
        let r := (b :: rest).takeWhile isRunByte
        if (8 ≤ r.length ∧ r.length < 10) ∧ containsDigitB r ∧ isOnlyAlphanumericB r then r
        else scanShort ((b :: rest).drop (r.length + 1))
      else scanShort rest
    else []
termination_by s => s.length
decreasing_by
  · simp only [List.length_drop]
    simp only [List.length_cons]
    omega
  · simp

/-- handlers.findUserComment: the long-run scan, then the short-run scan,
then empty. -/
def findUserComment (exifData : List Nat) : List Nat :=
  match scanLong exifData with
  | [] => scanShort exifData
  | r => r

/-- The bytes "Exif\x00\x00". -/
def exifHeader : List Nat := [69, 120, 105, 102, 0, 0]

/-- handlers.extractUserCommentFromEXIF's segment walk from a given offset:
stop unless a 0xFF marker byte is next; skip padding 0xFF markers; on APP1
(0xE1) validate the length field and the Exif header, scan the segment body
and return a non-empty comment; on any other marker skip by the length
field; malformed lengths abort with the empty result. -/
def walkSegments (data : List Nat) (offset : Nat) : List Nat :=
  if _h : offset + 1 < data.length then
    if data.getD offset 0 ≠ 0xFF then []
    else
      let marker := data.getD (offset + 1) 0
      if marker = 0xFF then walkSegments data (offset + 2)
      else if marker = 0xE1 then
        if data.length < offset + 2 + 2 then []
        else
          let len := data.getD (offset + 2) 0 * 256 + data.getD (offset + 3) 0
          if len < 2 ∨ data.length < offset + 2 + len then []
          else
            if offset + 2 + 6 ≤ data.length ∧
                ((data.drop (offset + 4)).take 6 = exifHeader) then
              let comment := findUserComment ((data.drop (offset + 4)).take (len - 2))
              if comment ≠ [] then comment
              else walkSegments data (offset + 2 + len)
            else walkSegments data (offset + 2 + len)
      else
        if data.length < offset + 2 + 2 then []
        else
          let len := data.getD (offset + 2) 0 * 256 + data.getD (offset + 3) 0
          if len < 2 then []
          else walkSegments data (offset + 2 + len)
  else []
termination_by data.length - offset
decreasing_by
  · omega
  · omega
  · omega
  · omega

/-- handlers.extractUserCommentFromEXIF: insist on the JPEG start-of-image
marker, then walk the segments from offset 2. -/
def extractUserCommentFromEXIF (data : List Nat) : List Nat :=
  if data.length < 2 ∨ data.getD 0 0 ≠ 0xFF ∨ data.getD 1 0 ≠ 0xD8 then []
  else walkSegments data 2

/-- handlers.extractCounterNumberFromEXIF delegates to the comment scan. -/
def extractCounterNumberFromEXIF (data : List Nat) : List Nat :=
  extractUserCommentFromEXIF data

/-! ### The scanner characterization (for claim C3) -/

/-- The run the scan would take at position `i`: the maximal stretch of run
bytes starting there. -/
def runAt (s : List Nat) (i : Nat) : List Nat :=
  (s.drop i).takeWhile isRunByte

/-- Position `i` yields the long-scan result: it is before the `len-10`
guard, starts with an ASCII alphanumeric, and its run has length ≥ 10 with
a digit. -/
def qualLong (s : List Nat) (i : Nat) : Bool :=
  decide (i + 10 < s.length) && isAlphanumericB (s.getD i 0) &&
    decide (10 ≤ (runAt s i).length) && containsDigitB (runAt s i)

/-- The long scan, characterized declaratively: the run taken at the least
qualifying start position, or empty when no position qualifies. -/
def scanLongSpec (s : List Nat) : List Nat :=
  match (List.range s.length).find? (qualLong s) with
  | some i => runAt s i
  | none => []

/-- The short scan transcribed to start positions in the whole payload: the
amended phase-2 wording (runs start only at ASCII alphanumerics seen before
the `len-8` guard, extend maximally over run bytes, and a rejected run
resumes one byte past its end). -/
def scanShortIdx (s : List Nat) (i : Nat) : List Nat :=
  if i + 8 < s.length then
    if isAlphanumericB (s.getD i 0) then
      if (8 ≤ (runAt s i).length ∧ (runAt s i).length < 10) ∧
          containsDigitB (runAt s i) = true ∧ isOnlyAlphanumericB (runAt s i) = true then
        runAt s i
      else scanShortIdx s (i + ((runAt s i).length + 1))
    else scanShortIdx s (i + 1)
  else []
termination_by s.length - i
decreasing_by
  · omega
  · omega

/-- findUserComment as the amended claim words it: phase 1 returns the run
at the least qualifying start position; failing that, the operational short
scan from position 0 decides. -/
def findUserCommentSpec (s : List Nat) : List Nat :=
  match (List.range s.length).find? (qualLong s) with
  | some i => runAt s i
  | none => scanShortIdx s 0

/-! ## handlers (part_000) : InitHandler and SyncHandler -/

/-- SyncHandler's duplicate-branch session closure: bump `skipped`, move to
`Syncing`, record the filename. -/
def duplicateUpdater (originalName : String) (s : Session) : Session :=
  { s with skipped := s.skipped + 1, status := .syncing, currentFile := originalName }

/-- SyncHandler's fresh-upload session closure: bump `uploaded`, move to
`Syncing`, record the filename, then complete when
`uploaded + skipped ≥ total`. -/
def uploadUpdater (originalName : String) (s : Session) : Session :=
  let s' := { s with uploaded := s.uploaded + 1, status := SyncStatus.syncing,
                     currentFile := originalName }
  if s'.uploaded + s'.skipped ≥ s'.total then { s' with status := .completed } else s'

/-- SyncHandler's save-failure closure: append the error message. -/
def errorUpdater (msg : String) (s : Session) : Session :=
  { s with errors := s.errors ++ [msg] }

/-- InitHandler's closure: set `total`, move to `Ready`, restart the clock. -/
def initUpdater (total : Int) (now : Int) (s : Session) : Session :=
  { s with total := total, status := .ready, startTime := now }

/-- The three mutable stores the handlers share. -/
structure ServerState where
  sessions : SessionMap
  hashDB : HashDB
  index : Index
deriving DecidableEq, Repr

/-- An HTTP response, to the precision the claims need. -/
inductive HResponse where
  | badRequest (msg : String)
  | notFound (msg : String)
  | internalError (msg : String)
  | ok
deriving DecidableEq, Repr

/-- /init's JSON body once bound (`none` models a bind failure). -/
structure InitRequest where
  total : Int
deriving DecidableEq, Repr

/-- handlers.InitHandler: empty token and body-bind failures are client
errors; an unknown token is not-found; otherwise set total, move to Ready
and restart the clock. -/
def initHandler (st : ServerState) (token : String) (body : Option InitRequest)
    (now : Int) : ServerState × HResponse :=
  if token = "" then (st, .badRequest "token is required")
  else
    match body with
    | none => (st, .badRequest "invalid body")
    | some req =>
      let upd := storeUpdate st.sessions token (initUpdater req.total now) now
      if upd.2 then ({ st with sessions := upd.1 }, .ok)
      else (st, .notFound "session not found")

/-- The effects SyncHandler calls out to: the clock, sha256, and the file
save (producing a relative path or failing). -/
structure SyncEnv where
  now : Int
  nowDate : DateTime
  hashOf : List Nat → String
  saveResult : Except String String
  joinBase : String → String
  indexSaveOk : Bool

/-- A /sync request: the token query parameter, the multipart photo bytes
(`none` models a FormFile failure), and the form fields (`dateTaken` is the
raw string, empty when absent). -/
structure SyncRequest where
  token : String
  photo : Option (List Nat)
  counterNumber : RuneStr
  originalName : String
  dateTaken : RuneStr

/-- handlers.SyncHandler: validate inputs, parse the date (falling back to
now), hash, run the duplicate check; a duplicate only records the skip,
while a fresh photo is saved, indexed, hashed and counted, completing the
session when `uploaded + skipped ≥ total`. -/
def syncHandler (env : SyncEnv) (st : ServerState) (r : SyncRequest) :
    ServerState × HResponse :=
  if r.token = "" then (st, .badRequest "token is required")
  else
    match storeGet st.sessions r.token with
    | none => (st, .notFound "session not found")
    | some _session =>
      match r.photo with
      | none => (st, .badRequest "photo file is required")
      | some data =>
        let dateTaken :=
          if r.dateTaken ≠ [] then
            match parseRFC3339 r.dateTaken with
            | some parsed => parsed
            | none => env.nowDate
          else env.nowDate
        let fileHash := env.hashOf data
        let size : Int := data.length
        let check := CheckDuplicate st.hashDB fileHash size r.counterNumber dateTaken st.index
        match check.1 with
        | some _existing =>
          let upd := storeUpdate st.sessions r.token (duplicateUpdater r.originalName) env.now
          ({ st with sessions := upd.1 }, .ok)
        | none =>
          let counter :=
            if r.counterNumber = [] then
              let fromEXIF := extractCounterNumberFromEXIF data
              if fromEXIF = [] then unknownRunes else fromEXIF
            else r.counterNumber
          let userComment := extractUserCommentFromEXIF data
          match env.saveResult with
          | .error e =>
            let upd := storeUpdate st.sessions r.token (errorUpdater e) env.now
            ({ st with sessions := upd.1 }, .internalError "failed to save file")
          | .ok relPath =>
            let fullPath := env.joinBase relPath
            let added := AddPhoto st.index env.indexSaveOk counter relPath fullPath
              dateTaken size fileHash userComment
            let db' := AddHash st.hashDB fileHash size dateTaken relPath
            let upd := storeUpdate st.sessions r.token (uploadUpdater r.originalName) env.now
            ({ sessions := upd.1, hashDB := db', index := added.1 }, .ok)

/-! ## Correctness of AddPhoto's exchange sort (for claims C4 and C6) -/

/-- Newest-first: every element is dated no later than its predecessors. -/
def sortedByDateDesc (l : List PhotoInfo) : Prop :=
  l.Pairwise (fun a b => dateToSecs b.date ≤ dateToSecs a.date)

/-- No two records share a relative path. -/
def pathsDistinct (l : List PhotoInfo) : Prop :=
  l.Pairwise (fun a b => a.path ≠ b.path)

/-! ## The index invariant (claim C4) -/

/-- Every bucket of the index is newest-first and path-distinct. -/
def IndexInv (idx : Index) : Prop :=
  ∀ k, sortedByDateDesc (indexGet idx k) ∧ pathsDistinct (indexGet idx k)

/-- One recorded AddPhoto call (C4 quantifies over sequences of them). -/
structure AddOp where
  saveOk : Bool
  counterNumber : RuneStr
  relPath : String
  fullPath : String
  date : DateTime
  size : Int
  hash : String
  userComment : RuneStr

/-- Apply a sequence of AddPhoto calls. -/
def applyAdds : List AddOp → Index → Index
  | [], idx => idx
  | op :: rest, idx =>
    applyAdds rest (AddPhoto idx op.saveOk op.counterNumber op.relPath
      op.fullPath op.date op.size op.hash op.userComment).1

/-- ASCII punctuation, separators and space: everything the claim calls a
punctuation/separator character.  None of these is cased and none is kept
by normalization. -/
def isPunctSep (c : Nat) : Bool :=
  (32 ≤ c ∧ c ≤ 47) ∨ (58 ≤ c ∧ c ≤ 64) ∨ (91 ≤ c ∧ c ≤ 96) ∨ (123 ≤ c ∧ c ≤ 126)

/-! ## Claim C3's spec-side scanner and concrete buffers -/

/-- The maximal-run decomposition claim C3's wording describes: maximal
stretches of ASCII alphanumerics or Cyrillic-range bytes, wherever they
start. -/
def maximalRuns : List Nat → List (List Nat)
  | [] => []
  | b :: rest =>
    if isRunByte b then
      ((b :: rest).takeWhile isRunByte)
        :: maximalRuns ((b :: rest).drop ((b :: rest).takeWhile isRunByte).length)
    else maximalRuns rest
termination_by l => l.length
decreasing_by
  · rename_i h
    have h1 : 1 ≤ ((b :: rest).takeWhile isRunByte).length := by
      rw [List.takeWhile_cons, if_pos h]
      simp
    simp only [List.length_drop, List.length_cons] at *
    omega
  · simp

/-- The comment scanner exactly as claim C3 words it: the first maximal run
of length ≥ 10 containing a digit; failing that, the first maximal run of
length in `[8, 10)` that is pure ASCII alphanumeric and contains a digit;
otherwise empty. -/
def claimScan (s : List Nat) : List Nat :=
  match (maximalRuns s).find? (fun r => decide (10 ≤ r.length) && containsDigitB r) with
  | some r => r
  | none =>
    match (maximalRuns s).find? (fun r =>
        decide (8 ≤ r.length) && decide (r.length < 10) && containsDigitB r &&
          isOnlyAlphanumericB r) with
    | some r => r
    | none => []

/-- The bytes "ABC1234567". -/
def abcRun : List Nat := [65, 66, 67, 49, 50, 51, 52, 53, 54, 55]

/-- A JPEG buffer with one APP1/Exif segment whose payload embeds
"ABC1234567" (claim C3's scenario). -/
def demoBuffer : List Nat :=
  [0xFF, 0xD8, 0xFF, 0xE1, 0, 23] ++ exifHeader ++ abcRun ++ [0, 0, 0, 0, 0]

/-- A maximal run that opens with the Cyrillic-range byte 0xD0 and
continues "BC12345678". -/
def cyrRun : List Nat := [0xD0, 66, 67, 49, 50, 51, 52, 53, 54, 55, 56]

/-- A JPEG buffer whose APP1/Exif payload's first qualifying maximal run is
`cyrRun`; the code returns only the tail after the Cyrillic byte. -/
def cexBuffer : List Nat :=
  [0xFF, 0xD8, 0xFF, 0xE1, 0, 24] ++ exifHeader ++ cyrRun ++ [0, 0, 0, 0, 0]

/-! ## Concrete inputs used by counterexamples and witnesses -/

/-- A fixed date. -/
def d2024 : DateTime := { year := 2024, month := 1, day := 1, hour := 0, minute := 0, second := 0 }

/-- A `Ready` session expecting one photo. -/
def c1Session : Session :=
  { token := "t", status := .ready, total := 1, uploaded := 0, skipped := 0,
    startTime := 0, lastUpdate := 0, currentFile := "", errors := [] }

/-- An environment whose hash function always answers "H". -/
def c1Env : SyncEnv :=
  { now := 10, nowDate := d2024, hashOf := fun _ => "H", saveResult := .ok "rel.jpg",
    joinBase := fun p => p, indexSaveOk := true }

/-- Server state: one session `"t"`, and "H" already in the hash table. -/
def c1State : ServerState :=
  { sessions := [("t", c1Session)],
    hashDB := [("H", { hash := "H", size := 3, date := d2024, path := "old.jpg" })],
    index := [] }

/-- A /sync request for session `"t"` whose photo will hash to "H". -/
def c1Request : SyncRequest :=
  { token := "t", photo := some [1, 2, 3], counterNumber := [], originalName := "f.jpg",
    dateTaken := [] }

/-- The spec's round-trip example record. -/
def w5Photo : PhotoInfo :=
  { path := "p1.jpg", fullPath := "", date := d2024, size := 100, hash := "h1",
    userComment := [] }

/-- The spec's round-trip example index (bucket "abc123"). -/
def w5Index : Index := [([97, 98, 99, 49, 50, 51], [w5Photo])]

/-- A state with one live session, for the C7 witness. -/
def w7State : ServerState := { sessions := [("t", c1Session)], hashDB := [], index := [] }

/-- A /sync request with a missing token. -/
def w7Request : SyncRequest :=
  { token := "", photo := some [1], counterNumber := [], originalName := "f", dateTaken := [] }

/-- A /sync request whose token is not in the session map. -/
def w7RequestUnknown : SyncRequest :=
  { token := "zzz", photo := some [1], counterNumber := [], originalName := "f",
    dateTaken := [] }

/-- A /sync request for the live session `"t"` with no photo payload. -/
def w7RequestNoPhoto : SyncRequest :=
  { token := "t", photo := none, counterNumber := [], originalName := "f", dateTaken := [] }

/-- A session with `total = 0` but recorded events. -/
def w9a : Session :=
  { token := "t", status := .waiting, total := 0, uploaded := 3, skipped := 4,
    startTime := 0, lastUpdate := 0, currentFile := "", errors := [] }

/-- A session halfway through. -/
def w9b : Session :=
  { token := "t", status := .syncing, total := 2, uploaded := 1, skipped := 0,
    startTime := 0, lastUpdate := 0, currentFile := "", errors := [] }

/-- A session consisting only of duplicates. -/
def w9c : Session :=
  { token := "t", status := .syncing, total := 9, uploaded := 0, skipped := 7,
    startTime := 0, lastUpdate := 0, currentFile := "", errors := [] }

theorem innerPass_length (x : PhotoInfo) (l : List PhotoInfo) :
    (innerPass x l).2.length = l.length := by
  induction l generalizing x with
  | nil => simp [innerPass]
  | cons y ys ih =>
    simp only [innerPass]
    split <;> simp [ih]

theorem daysInMonth_le (y m : Int) : daysInMonth y m ≤ 31 := by
  unfold daysInMonth
  split
  · split <;> omega
  · split <;> omega

theorem daysInMonth_pos (y m : Int) : 1 ≤ daysInMonth y m := by
  unfold daysInMonth
  split
  · split <;> omega
  · split <;> omega

theorem parse_format_roundtrip (dt : DateTime) (h : ValidDate dt) :
    parseRFC3339 (formatRFC3339 dt) = some dt := by
  obtain ⟨y, mo, d, hh, mi, ss⟩ := dt
  obtain ⟨hy0, hy1, hm0, hm1, hd0, hdm, hh0, hh1, hi0, hi1, hs0, hs1⟩ := h
  dsimp only at hy0 hy1 hm0 hm1 hd0 hdm hh0 hh1 hi0 hi1 hs0 hs1
  have hdml := daysInMonth_le y mo
  simp only [formatRFC3339, pad4, pad2, List.cons_append, List.nil_append, parseRFC3339]
  split
  · split
    · simp only [Option.some.injEq, DateTime.mk.injEq]
      refine ⟨?_, ?_, ?_, ?_, ?_, ?_⟩ <;> omega
    · rename_i hc2
      exfalso
      apply hc2
      have ey : (((48 + y.toNat / 1000 % 10 - 48) * 1000 + (48 + y.toNat / 100 % 10 - 48) * 100 +
          (48 + y.toNat / 10 % 10 - 48) * 10 + (48 + y.toNat % 10 - 48) : Nat) : Int) = y := by
        omega
      have em : (((48 + mo.toNat / 10 % 10 - 48) * 10 + (48 + mo.toNat % 10 - 48) : Nat) : Int)
          = mo := by omega
      have ed : (((48 + d.toNat / 10 % 10 - 48) * 10 + (48 + d.toNat % 10 - 48) : Nat) : Int)
          = d := by omega
      have eh : (((48 + hh.toNat / 10 % 10 - 48) * 10 + (48 + hh.toNat % 10 - 48) : Nat) : Int)
          = hh := by omega
      have ei : (((48 + mi.toNat / 10 % 10 - 48) * 10 + (48 + mi.toNat % 10 - 48) : Nat) : Int)
          = mi := by omega
      have es : (((48 + ss.toNat / 10 % 10 - 48) * 10 + (48 + ss.toNat % 10 - 48) : Nat) : Int)
          = ss := by omega
      rw [ey, em, ed, eh, ei, es]
      exact ⟨hm0, hm1, hd0, hdm, hh1, hi1, hs1⟩
  · rename_i hc
    exfalso
    apply hc
    refine ⟨?_, ?_, ?_, ?_, ?_, ?_, ?_, ?_, ?_, ?_, ?_, ?_, ?_, ?_, ?_, ?_, ?_, ?_, ?_, ?_⟩
      <;> first
        | trivial
        | (simp only [isDigitByte, decide_eq_true_eq]; omega)

/-! ### takeWhile facts used by the scanner characterization -/

theorem takeWhile_length_le (p : Nat → Bool) :
    ∀ l : List Nat, (l.takeWhile p).length ≤ l.length := by
  intro l
  induction l with
  | nil => simp
  | cons b rest ih =>
    rw [List.takeWhile_cons]
    split
    · simp only [List.length_cons]
      omega
    · simp

theorem takeWhile_drop (p : Nat → Bool) :
    ∀ (l : List Nat) (t : Nat), t ≤ (l.takeWhile p).length →
      (l.drop t).takeWhile p = (l.takeWhile p).drop t := by
  intro l
  induction l with
  | nil => simp
  | cons b rest ih =>
    intro t ht
    match t with
    | 0 => simp
    | t' + 1 =>
      rw [List.takeWhile_cons] at ht ⊢
      by_cases hb : p b
      · simp only [if_pos hb] at ht ⊢
        simp only [List.length_cons] at ht
        simpa using ih t' (by omega)
      · simp only [if_neg hb] at ht
        simp at ht

theorem after_takeWhile_false (p : Nat → Bool) :
    ∀ l : List Nat, (l.takeWhile p).length < l.length →
      p (l.getD (l.takeWhile p).length 0) = false := by
  intro l
  induction l with
  | nil => simp
  | cons b rest ih =>
    intro hlt
    rw [List.takeWhile_cons] at hlt ⊢
    by_cases hb : p b
    · simp only [if_pos hb] at hlt ⊢
      simp only [List.length_cons] at hlt
      simpa using ih (by omega)
    · simp only [if_neg hb]
      simpa using hb

theorem getD_drop_add :
    ∀ (l : List Nat) (i j : Nat), (l.drop i).getD j 0 = l.getD (i + j) 0 := by
  intro l
  induction l with
  | nil => simp
  | cons b rest ih =>
    intro i j
    match i with
    | 0 => simp
    | i' + 1 =>
      simp only [List.drop_succ_cons]
      rw [ih i' j, show i' + 1 + j = (i' + j) + 1 from by omega, List.getD_cons_succ]

theorem drop_eq_getD_cons :
    ∀ (l : List Nat) (i : Nat), i < l.length → l.drop i = l.getD i 0 :: l.drop (i + 1) := by
  intro l
  induction l with
  | nil => simp
  | cons b rest ih =>
    intro i hi
    match i with
    | 0 => simp
    | i' + 1 =>
      simp only [List.drop_succ_cons, List.getD_cons_succ]
      exact ih i' (by simpa using Nat.lt_of_succ_lt_succ hi)

theorem runAt_length_pos (s : List Nat) (i : Nat) (hi : i < s.length)
    (hb : isRunByte (s.getD i 0) = true) : 1 ≤ (runAt s i).length := by
  unfold runAt
  rw [drop_eq_getD_cons s i hi, List.takeWhile_cons, if_pos hb]
  simp

theorem runAt_shift (s : List Nat) (i t : Nat) (ht : t ≤ (runAt s i).length) :
    runAt s (i + t) = (runAt s i).drop t := by
  unfold runAt at ht ⊢
  rw [← List.drop_drop, takeWhile_drop _ _ t ht]

theorem containsDigitB_drop (r : List Nat) (t : Nat)
    (h : containsDigitB r = false) : containsDigitB (r.drop t) = false := by
  unfold containsDigitB at h ⊢
  rw [List.any_eq_false] at h ⊢
  intro x hx
  exact h x (List.mem_of_mem_drop hx)

/-- The byte just past the run taken at `i` is not a run byte. -/
theorem runAt_stopper (s : List Nat) (i : Nat)
    (h : i + (runAt s i).length < s.length) :
    isRunByte (s.getD (i + (runAt s i).length) 0) = false := by
  have hlen : ((s.drop i).takeWhile isRunByte).length < (s.drop i).length := by
    unfold runAt at h
    simp only [List.length_drop]
    omega
  have h2 := after_takeWhile_false isRunByte (s.drop i) hlen
  rw [getD_drop_add] at h2
  exact h2

/-- Positions strictly inside the run taken at `i`, or at the run's
stopper, never qualify when `i` itself failed the window test. -/
theorem qualLong_false_within (s : List Nat) (i j : Nat)
    (hij : i < j) (hjL : j ≤ i + (runAt s i).length)
    (hfail : ¬(10 ≤ (runAt s i).length ∧ containsDigitB (runAt s i) = true)) :
    qualLong s j = false := by
  rcases Nat.lt_or_ge j (i + (runAt s i).length) with hlt | hge
  · have hshift : runAt s j = (runAt s i).drop (j - i) := by
      have := runAt_shift s i (j - i) (by omega)
      rwa [Nat.add_sub_cancel' (Nat.le_of_lt hij)] at this
    unfold qualLong
    rcases Decidable.em (10 ≤ (runAt s i).length) with hL | hL
    · have hdig : containsDigitB (runAt s i) = false := by
        rcases Bool.eq_false_or_eq_true (containsDigitB (runAt s i)) with h | h
        · exact absurd ⟨hL, h⟩ hfail
        · exact h
      rw [hshift, containsDigitB_drop _ _ hdig]
      simp
    · have hlen : decide (10 ≤ (runAt s j).length) = false := by
        rw [hshift, List.length_drop]
        simp only [decide_eq_false_iff_not]
        omega
      rw [Bool.and_assoc, Bool.and_assoc, hlen]
      simp
  · have hj : j = i + (runAt s i).length := by omega
    rcases Nat.lt_or_ge j s.length with hjlen | hjlen
    · have hstop : isRunByte (s.getD j 0) = false := by
        rw [hj]
        exact runAt_stopper s i (by omega)
      have halnum : isAlphanumericB (s.getD j 0) = false := by
        unfold isRunByte at hstop
        rcases Bool.eq_false_or_eq_true (isAlphanumericB (s.getD j 0)) with h | h
        · rw [h] at hstop; simp at hstop
        · exact h
      unfold qualLong
      rw [halnum]
      simp
    · unfold qualLong
      have hguard : decide (j + 10 < s.length) = false := by
        simp only [decide_eq_false_iff_not]
        omega
      rw [hguard]
      simp

/-- Dropping an all-failing front of a position range does not change the
first hit. -/
theorem find?_range'_shift (p : Nat → Bool) (i m n : Nat) (hmn : m ≤ n)
    (hfail : ∀ j, i ≤ j → j < i + m → p j = false) :
    (List.range' i n).find? p = (List.range' (i + m) (n - m)).find? p := by
  have hsplit : List.range' i m ++ List.range' (i + m) (n - m) = List.range' i n := by
    have := List.range'_append i m (n - m) 1
    simp only [Nat.mul_one, Nat.one_mul] at this
    rw [show n - m + m = n from by omega] at this
    simpa using this
  rw [← hsplit, List.find?_append]
  have hnone : (List.range' i m).find? p = none := by
    rw [List.find?_eq_none]
    intro j hj
    rw [List.mem_range'_1] at hj
    rw [hfail j hj.1 hj.2]
    simp
  rw [hnone, Option.none_or]

theorem scanLong_drop (s : List Nat) :
    ∀ (n i : Nat), s.length - i ≤ n →
      scanLong (s.drop i) =
        (match (List.range' i (s.length - i)).find? (qualLong s) with
         | some j => runAt s j
         | none => []) := by
  intro n
  induction n with
  | zero =>
    intro i hi
    have hdrop : s.drop i = [] := List.drop_eq_nil_of_le (by omega)
    have hrange : s.length - i = 0 := by omega
    rw [hdrop, hrange]
    simp [scanLong]
  | succ n ih =>
    intro i hi
    rcases Nat.lt_or_ge (i + 10) s.length with hguard | hguard
    case inr =>
      have hnone : (List.range' i (s.length - i)).find? (qualLong s) = none := by
        rw [List.find?_eq_none]
        intro j hj
        rw [List.mem_range'_1] at hj
        unfold qualLong
        have hg : decide (j + 10 < s.length) = false := by
          simp only [decide_eq_false_iff_not]
          omega
        rw [hg]
        simp
      rw [hnone]
      cases hdrop : s.drop i with
      | nil => simp [scanLong]
      | cons b rest =>
        have hlen : (b :: rest).length = s.length - i := by
          rw [← hdrop]
          simp
        simp only [scanLong]
        rw [if_neg]
        rw [hlen]
        omega
    case inl =>
      have hi_lt : i < s.length := by omega
      have hcons := drop_eq_getD_cons s i hi_lt
      have hrange : s.length - i = (s.length - (i + 1)) + 1 := by omega
      rw [hrange, List.range'_succ]
      rcases Bool.eq_false_or_eq_true (isAlphanumericB (s.getD i 0)) with halnum | halnum
      · -- run start: case split on the window test
        have hrun : List.takeWhile isRunByte (List.drop i s) = runAt s i := rfl
        have hL1 : 1 ≤ (runAt s i).length := by
          refine runAt_length_pos s i hi_lt ?_
          unfold isRunByte
          rw [halnum]
          simp
        rcases Decidable.em
            (10 ≤ (runAt s i).length ∧ containsDigitB (runAt s i) = true) with hwin | hwin
        · have hqi : qualLong s i = true := by
            unfold qualLong
            rw [halnum, hwin.2]
            have h1 : decide (i + 10 < s.length) = true := by simpa using hguard
            have h2 : decide (10 ≤ (runAt s i).length) = true := by simpa using hwin.1
            rw [h1, h2]
            simp
          rw [List.find?_cons_of_pos _ hqi]
          rw [hcons]
          simp only [scanLong]
          rw [if_pos (by simp only [List.length_cons, List.length_drop]; omega)]
          rw [if_pos halnum]
          simp only [← hcons, hrun]
          rw [if_pos hwin]
        · have hqi : qualLong s i = false := by
            unfold qualLong
            rcases Decidable.em (10 ≤ (runAt s i).length) with hL | hL
            · have hdig : containsDigitB (runAt s i) = false := by
                rcases Bool.eq_false_or_eq_true (containsDigitB (runAt s i)) with h | h
                · exact absurd ⟨hL, h⟩ hwin
                · exact h
              rw [hdig]
              simp
            · have h2 : decide (10 ≤ (runAt s i).length) = false := by simpa using hL
              rw [h2]
              simp
          rw [List.find?_cons_of_neg _ (by simp [hqi])]
          have hlhs : scanLong (s.drop i) = scanLong (s.drop (i + ((runAt s i).length + 1))) := by
            rw [hcons]
            simp only [scanLong]
            rw [if_pos (by simp only [List.length_cons, List.length_drop]; omega)]
            rw [if_pos halnum]
            simp only [← hcons, hrun]
            rw [if_neg hwin]
            rw [List.drop_drop]
          rw [hlhs]
          rcases le_or_lt ((runAt s i).length + 1) (s.length - (i + 1)) with hfit | hfit
          · have hshift := find?_range'_shift (qualLong s) (i + 1) ((runAt s i).length)
              (s.length - (i + 1)) (by omega)
              (fun j hj1 hj2 => qualLong_false_within s i j (by omega) (by omega) hwin)
            rw [hshift]
            have hih := ih (i + ((runAt s i).length + 1)) (by omega)
            rw [show i + 1 + (runAt s i).length = i + ((runAt s i).length + 1) from by omega,
              show s.length - (i + 1) - (runAt s i).length
                  = s.length - (i + ((runAt s i).length + 1)) from by omega]
            exact hih
          · have hnone : (List.range' (i + 1) (s.length - (i + 1))).find? (qualLong s)
                = none := by
              rw [List.find?_eq_none]
              intro j hj
              rw [List.mem_range'_1] at hj
              rw [qualLong_false_within s i j (by omega) (by omega) hwin]
              simp
            rw [hnone]
            have hdrop2 : s.drop (i + ((runAt s i).length + 1)) = [] :=
              List.drop_eq_nil_of_le (by omega)
            rw [hdrop2]
            simp [scanLong]
      · -- not a run start: step one position
        have hqi : qualLong s i = false := by
          unfold qualLong
          rw [halnum]
          simp
        rw [List.find?_cons_of_neg _ (by simp [hqi])]
        have hlhs : scanLong (s.drop i) = scanLong (s.drop (i + 1)) := by
          rw [hcons]
          simp only [scanLong]
          rw [if_pos (by simp only [List.length_cons, List.length_drop]; omega)]
          rw [if_neg (by rw [halnum]; simp)]
        rw [hlhs]
        exact ih (i + 1) (by omega)

theorem scanLong_eq_spec (s : List Nat) : scanLong s = scanLongSpec s := by
  have h := scanLong_drop s s.length 0 (by omega)
  rw [List.drop_zero] at h
  rw [h]
  unfold scanLongSpec
  rw [List.range_eq_range']
  rw [show s.length - 0 = s.length from by omega]

theorem scanShort_drop (s : List Nat) :
    ∀ (n i : Nat), s.length - i ≤ n → scanShort (s.drop i) = scanShortIdx s i := by
  intro n
  induction n with
  | zero =>
    intro i hi
    have hdrop : s.drop i = [] := List.drop_eq_nil_of_le (by omega)
    rw [hdrop]
    unfold scanShortIdx
    rw [if_neg (by omega)]
    simp [scanShort]
  | succ n ih =>
    intro i hi
    rcases Nat.lt_or_ge (i + 8) s.length with hguard | hguard
    case inr =>
      unfold scanShortIdx
      rw [if_neg (by omega)]
      cases hdrop : s.drop i with
      | nil => simp [scanShort]
      | cons b rest =>
        have hlen : (b :: rest).length = s.length - i := by
          rw [← hdrop]
          simp
        simp only [scanShort]
        rw [if_neg]
        rw [hlen]
        omega
    case inl =>
      have hi_lt : i < s.length := by omega
      have hcons := drop_eq_getD_cons s i hi_lt
      have hrun : List.takeWhile isRunByte (List.drop i s) = runAt s i := rfl
      unfold scanShortIdx
      rw [if_pos hguard]
      rcases Bool.eq_false_or_eq_true (isAlphanumericB (s.getD i 0)) with halnum | halnum
      · rw [if_pos halnum]
        rcases Decidable.em ((8 ≤ (runAt s i).length ∧ (runAt s i).length < 10) ∧
            containsDigitB (runAt s i) = true ∧ isOnlyAlphanumericB (runAt s i) = true)
          with hwin | hwin
        · rw [if_pos hwin]
          rw [hcons]
          simp only [scanShort]
          rw [if_pos (by simp only [List.length_cons, List.length_drop]; omega)]
          rw [if_pos halnum]
          simp only [← hcons, hrun]
          rw [if_pos hwin]
        · rw [if_neg hwin]
          have hlhs : scanShort (s.drop i)
              = scanShort (s.drop (i + ((runAt s i).length + 1))) := by
            rw [hcons]
            simp only [scanShort]
            rw [if_pos (by simp only [List.length_cons, List.length_drop]; omega)]
            rw [if_pos halnum]
            simp only [← hcons, hrun]
            rw [if_neg hwin]
            rw [List.drop_drop]
          rw [hlhs]
          exact ih (i + ((runAt s i).length + 1)) (by omega)
      · rw [if_neg (by rw [halnum]; simp)]
        have hlhs : scanShort (s.drop i) = scanShort (s.drop (i + 1)) := by
          rw [hcons]
          simp only [scanShort]
          rw [if_pos (by simp only [List.length_cons, List.length_drop]; omega)]
          rw [if_neg (by rw [halnum]; simp)]
        rw [hlhs]
        exact ih (i + 1) (by omega)

theorem findUserComment_eq_spec (s : List Nat) :
    findUserComment s = findUserCommentSpec s := by
  unfold findUserComment findUserCommentSpec
  rw [scanLong_eq_spec]
  unfold scanLongSpec
  cases h : (List.range s.length).find? (qualLong s) with
  | none =>
    have hs := scanShort_drop s s.length 0 (by omega)
    rw [List.drop_zero] at hs
    simpa using hs
  | some j =>
    have hq := List.find?_some h
    unfold qualLong at hq
    have hlen : 10 ≤ (runAt s j).length := by
      rcases Bool.and_eq_true_iff.mp hq with ⟨hq1, _⟩
      rcases Bool.and_eq_true_iff.mp hq1 with ⟨_, hq3⟩
      simpa using hq3
    cases hr : runAt s j with
    | nil =>
      rw [hr] at hlen
      simp at hlen
    | cons a l =>
      dsimp only
      rw [hr]

theorem innerPass_perm (x : PhotoInfo) (l : List PhotoInfo) :
    List.Perm ((innerPass x l).1 :: (innerPass x l).2) (x :: l) := by
  induction l generalizing x with
  | nil => simp [innerPass]
  | cons y ys ih =>
    simp only [innerPass]
    split
    · refine List.Perm.trans (List.Perm.swap x (innerPass y ys).1 (innerPass y ys).2) ?_
      exact List.Perm.cons x (ih y)
    · refine List.Perm.trans (List.Perm.swap y (innerPass x ys).1 (innerPass x ys).2) ?_
      refine List.Perm.trans (List.Perm.cons y (ih x)) ?_
      exact List.Perm.swap x y ys

theorem innerPass_fst_ge_x (x : PhotoInfo) (l : List PhotoInfo) :
    dateToSecs x.date ≤ dateToSecs (innerPass x l).1.date := by
  induction l generalizing x with
  | nil => simp [innerPass]
  | cons y ys ih =>
    simp only [innerPass]
    split
    · rename_i hlt
      have hxy : dateToSecs x.date < dateToSecs y.date := by
        simpa [dateBefore] using hlt
      exact le_trans (le_of_lt hxy) (ih y)
    · exact ih x

theorem innerPass_fst_ge_mem (x : PhotoInfo) (l : List PhotoInfo) :
    ∀ z ∈ (innerPass x l).2, dateToSecs z.date ≤ dateToSecs (innerPass x l).1.date := by
  induction l generalizing x with
  | nil => simp [innerPass]
  | cons y ys ih =>
    simp only [innerPass]
    split
    · rename_i hlt
      have hxy : dateToSecs x.date < dateToSecs y.date := by
        simpa [dateBefore] using hlt
      intro z hz
      rcases List.mem_cons.mp hz with hzx | hzr
      · subst hzx
        exact le_trans (le_of_lt hxy) (innerPass_fst_ge_x y ys)
      · exact ih y z hzr
    · rename_i hge
      have hyx : dateToSecs y.date ≤ dateToSecs x.date := by
        simpa [dateBefore] using hge
      intro z hz
      rcases List.mem_cons.mp hz with hzy | hzr
      · subst hzy
        exact le_trans hyx (innerPass_fst_ge_x x ys)
      · exact ih x z hzr

theorem exchangeSort_perm :
    ∀ (n : Nat) (l : List PhotoInfo), l.length ≤ n →
      List.Perm (exchangeSort l) l := by
  intro n
  induction n with
  | zero =>
    intro l hl
    have : l = [] := List.eq_nil_of_length_eq_zero (by omega)
    subst this
    simp [exchangeSort]
  | succ n ih =>
    intro l hl
    cases l with
    | nil => simp [exchangeSort]
    | cons x xs =>
      simp only [exchangeSort]
      have hlen : (innerPass x xs).2.length ≤ n := by
        rw [innerPass_length]
        simpa using hl
      refine List.Perm.trans (List.Perm.cons (innerPass x xs).1 (ih _ hlen)) ?_
      exact innerPass_perm x xs

theorem exchangeSort_sorted :
    ∀ (n : Nat) (l : List PhotoInfo), l.length ≤ n →
      sortedByDateDesc (exchangeSort l) := by
  intro n
  induction n with
  | zero =>
    intro l hl
    have : l = [] := List.eq_nil_of_length_eq_zero (by omega)
    subst this
    simp [exchangeSort, sortedByDateDesc]
  | succ n ih =>
    intro l hl
    cases l with
    | nil => simp [exchangeSort, sortedByDateDesc]
    | cons x xs =>
      simp only [exchangeSort, sortedByDateDesc]
      rw [List.pairwise_cons]
      constructor
      · intro z hz
        have hlen : (innerPass x xs).2.length ≤ n := by
          rw [innerPass_length]
          simpa using hl
        have hmem : z ∈ (innerPass x xs).2 :=
          (List.Perm.mem_iff (exchangeSort_perm n _ hlen)).mp hz
        exact innerPass_fst_ge_mem x xs z hmem
      · have hlen : (innerPass x xs).2.length ≤ n := by
          rw [innerPass_length]
          simpa using hl
        exact ih _ hlen

theorem exchangeSort_pathsDistinct (l : List PhotoInfo) (h : pathsDistinct l) :
    pathsDistinct (exchangeSort l) := by
  unfold pathsDistinct at h ⊢
  refine (List.Perm.pairwise_iff ?_ (exchangeSort_perm l.length l (le_refl _))).mpr h
  intro a b hab
  exact fun he => hab he.symm

theorem indexGet_indexSet (idx : Index) (k : RuneStr) (v : List PhotoInfo)
    (k' : RuneStr) :
    indexGet (indexSet idx k v) k' = if k = k' then v else indexGet idx k' := by
  induction idx with
  | nil =>
    by_cases h : k = k'
    · simp [indexSet, indexGet, h]
    · simp [indexSet, indexGet, h]
  | cons e rest ih =>
    obtain ⟨ke, ve⟩ := e
    by_cases hk : ke = k
    · subst hk
      by_cases h : ke = k'
      · simp [indexSet, indexGet, h]
      · simp [indexSet, indexGet, h]
    · by_cases h : ke = k'
      · subst h
        have : ¬ k = ke := fun hc => hk hc.symm
        simp [indexSet, indexGet, hk, this]
      · simp only [indexSet, if_neg hk, indexGet, if_neg h]
        exact ih

theorem IndexInv_empty : IndexInv [] := by
  intro k
  simp [indexGet, sortedByDateDesc, pathsDistinct]

theorem AddPhoto_inv (idx : Index) (saveOk : Bool) (counterNumber : RuneStr)
    (relPath fullPath : String) (date : DateTime) (size : Int) (hash : String)
    (userComment : RuneStr) (h : IndexInv idx) :
    IndexInv (AddPhoto idx saveOk counterNumber relPath fullPath date size
      hash userComment).1 := by
  unfold AddPhoto
  set norm := NormalizeCounterNumber counterNumber with hnorm
  set bucket := indexGet idx norm with hbucket
  by_cases hdup : bucket.any (fun p => p.path = relPath)
  · simpa [hdup] using h
  · simp only [hdup]
    simp only [Bool.false_eq_true, if_false]
    intro k
    rw [indexGet_indexSet]
    by_cases hk : norm = k
    · simp only [hk, if_pos rfl]
      rw [← hk]
      have hfresh : ∀ p ∈ bucket, p.path ≠ relPath := by
        intro p hp
        have := List.any_eq_false.mp (Bool.eq_false_iff.mpr hdup) p hp
        simpa using this
      have hdistinct : pathsDistinct (bucket ++
          [{ path := relPath, fullPath := fullPath, date := date, size := size,
             hash := hash, userComment := userComment }]) := by
        unfold pathsDistinct
        rw [List.pairwise_append]
        refine ⟨(h norm).2, by simp [pathsDistinct], ?_⟩
        intro a ha b hb
        simp only [List.mem_singleton] at hb
        subst hb
        exact hfresh a ha
      exact ⟨exchangeSort_sorted _ _ (le_refl _), exchangeSort_pathsDistinct _ hdistinct⟩
    · simp only [if_neg hk]
      exact h k

theorem applyAdds_inv (ops : List AddOp) (idx : Index) (h : IndexInv idx) :
    IndexInv (applyAdds ops idx) := by
  induction ops generalizing idx with
  | nil => simpa [applyAdds] using h
  | cons op rest ih =>
    simp only [applyAdds]
    exact ih _ (AddPhoto_inv _ _ _ _ _ _ _ _ _ h)

/-! ## Normalization facts (claims C8 and C10) -/

theorem toLowerRune_fixes_allowed (c : Nat) (h : isAllowedRune c = true) :
    toLowerRune c = c := by
  unfold isAllowedRune at h
  unfold toLowerRune
  simp only [decide_eq_true_eq] at h
  split_ifs <;> omega

theorem normalize_mem_allowed (s : RuneStr) :
    ∀ c ∈ NormalizeCounterNumber s, isAllowedRune c = true := by
  intro c hc
  unfold NormalizeCounterNumber at hc
  exact List.of_mem_filter hc

theorem map_toLower_fixes (l : RuneStr) (h : ∀ c ∈ l, isAllowedRune c = true) :
    l.map toLowerRune = l := by
  induction l with
  | nil => simp
  | cons c rest ih =>
    simp only [List.map_cons]
    rw [toLowerRune_fixes_allowed c (h c (by simp)), ih (fun d hd => h d (by simp [hd]))]

theorem normalize_idem (s : RuneStr) :
    NormalizeCounterNumber (NormalizeCounterNumber s) = NormalizeCounterNumber s := by
  show ((NormalizeCounterNumber s).map toLowerRune).filter isAllowedRune
    = NormalizeCounterNumber s
  rw [map_toLower_fixes _ (normalize_mem_allowed s)]
  rw [List.filter_eq_self.mpr (normalize_mem_allowed s)]

theorem punct_dropped (c : Nat) (h : isPunctSep c = true) :
    toLowerRune c = c ∧ isAllowedRune c = false := by
  unfold isPunctSep at h
  simp only [decide_eq_true_eq] at h
  constructor
  · unfold toLowerRune
    split_ifs <;> omega
  · unfold isAllowedRune
    simp only [decide_eq_false_iff_not]
    omega

theorem normalize_drops_punct (s : RuneStr) :
    NormalizeCounterNumber s
      = NormalizeCounterNumber (s.filter (fun c => !isPunctSep c)) := by
  induction s with
  | nil => simp
  | cons c rest ih =>
    unfold NormalizeCounterNumber at ih ⊢
    by_cases hp : isPunctSep c = true
    · have hlow := (punct_dropped c hp).1
      have hdrop := (punct_dropped c hp).2
      simp only [List.filter_cons, List.map_cons, hlow, hdrop, hp, Bool.not_true,
        Bool.false_eq_true, if_false]
      exact ih
    · have hp2 : isPunctSep c = false := by
        rcases Bool.eq_false_or_eq_true (isPunctSep c) with h | h
        · exact absurd h hp
        · exact h
      simp only [List.filter_cons, List.map_cons, hp2, Bool.not_false, if_true]
      rw [ih]

theorem demoBuffer_eval : extractUserCommentFromEXIF demoBuffer = abcRun := by
  simp [extractUserCommentFromEXIF, walkSegments, findUserComment, scanLong, demoBuffer,
    exifHeader, abcRun, isAlphanumericB, isRunByte, isCyrillicB, containsDigitB, isDigitByte]

theorem cexBuffer_eval :
    extractUserCommentFromEXIF cexBuffer = [66, 67, 49, 50, 51, 52, 53, 54, 55, 56] := by
  simp [extractUserCommentFromEXIF, walkSegments, findUserComment, scanLong, cexBuffer,
    exifHeader, cyrRun, isAlphanumericB, isRunByte, isCyrillicB, containsDigitB, isDigitByte]

theorem cexPayload_claimScan :
    claimScan (exifHeader ++ cyrRun ++ [0, 0, 0, 0, 0]) = cyrRun := by
  simp [claimScan, maximalRuns, exifHeader, cyrRun, isAlphanumericB, isRunByte,
    isCyrillicB, containsDigitB, isDigitByte, isOnlyAlphanumericB]

/-! ## The claims -/

/-- C1 (counterexample): in a `Ready` session with `total = 1`, recording a
duplicate upload leaves `uploaded + skipped ≥ total` yet the session in
`Syncing` — the duplicate branch of SyncHandler never runs the completion
check, so the claim's "a session whose final event is a duplicate still
reaches Completed" is false. -/
theorem C1_counterexample :
    storeGet (syncHandler c1Env c1State c1Request).1.sessions "t"
      = some { token := "t", status := .syncing, total := 1, uploaded := 0, skipped := 1,
               startTime := 0, lastUpdate := 10, currentFile := "f.jpg", errors := [] } ∧
    (0 : Int) + 1 ≥ (1 : Int) ∧ SyncStatus.syncing ≠ SyncStatus.completed := by
  refine ⟨?_, by omega, by decide⟩
  decide

/-- C1 (amended): recording an upload event sets the current filename and
moves the session to `Syncing`; a duplicate increments `skipped` and never
runs the completion check (its status is `Syncing` unconditionally), while
a fresh upload increments `uploaded` and moves to `Completed` exactly when
`uploaded + skipped ≥ total` afterwards. -/
theorem C1_record_upload_amended (name : String) (s : Session) :
    (duplicateUpdater name s).skipped = s.skipped + 1 ∧
    (duplicateUpdater name s).uploaded = s.uploaded ∧
    (duplicateUpdater name s).status = SyncStatus.syncing ∧
    (duplicateUpdater name s).currentFile = name ∧
    (duplicateUpdater name s).total = s.total ∧
    (uploadUpdater name s).uploaded = s.uploaded + 1 ∧
    (uploadUpdater name s).skipped = s.skipped ∧
    (uploadUpdater name s).currentFile = name ∧
    (uploadUpdater name s).total = s.total ∧
    (s.uploaded + 1 + s.skipped ≥ s.total →
      (uploadUpdater name s).status = SyncStatus.completed) ∧
    (s.uploaded + 1 + s.skipped < s.total →
      (uploadUpdater name s).status = SyncStatus.syncing) := by
  unfold duplicateUpdater uploadUpdater
  dsimp only
  refine ⟨rfl, rfl, rfl, rfl, rfl, ?_, ?_, ?_, ?_, ?_, ?_⟩
  · split <;> rfl
  · split <;> rfl
  · split <;> rfl
  · split <;> rfl
  · intro h
    split
    · rfl
    · exfalso
      omega
  · intro h
    split
    · exfalso
      omega
    · rfl

theorem C1_record_upload_amended_witness :
    (uploadUpdater "f.jpg" c1Session).status = SyncStatus.completed ∧
    (duplicateUpdater "f.jpg" c1Session).status = SyncStatus.syncing :=
  ⟨(C1_record_upload_amended "f.jpg" c1Session).2.2.2.2.2.2.2.2.2.1 (by decide),
   (C1_record_upload_amended "f.jpg" c1Session).2.2.1⟩

/-- C2: a hash already stored (as AddHash leaves it) makes CheckDuplicate
return that stored entry with reason "hash" for every size, identifier,
timestamp and index — tier 1 answers before tier 2 is consulted; AddHash
stores exactly the entry, and unrelated AddHash calls do not disturb it. -/
theorem C2_hash_tier_authoritative :
    (∀ (db : HashDB) (h : String) (info : FileHashInfo) (size : Int)
        (counter : RuneStr) (date : DateTime) (idx : Index),
        hashLookup db h = some info →
          CheckDuplicate db h size counter date idx = (some info, "hash")) ∧
    (∀ (db : HashDB) (h : String) (size : Int) (date : DateTime) (path : String),
        hashLookup (AddHash db h size date path) h
          = some { hash := h, size := size, date := date, path := path }) ∧
    (∀ (db : HashDB) (h h' : String) (size : Int) (date : DateTime) (path : String),
        h' ≠ h → hashLookup (AddHash db h' size date path) h = hashLookup db h) := by
  refine ⟨?_, ?_, ?_⟩
  · intro db h info size counter date idx hl
    unfold CheckDuplicate
    rw [hl]
  · intro db h size date path
    unfold AddHash hashLookup
    rw [if_pos rfl]
  · intro db h h' size date path hne
    simp only [AddHash, hashLookup, if_neg hne]

theorem C2_hash_tier_authoritative_witness :
    CheckDuplicate (AddHash [] "h1" 5 d2024 "p1.jpg") "h1" 99 [120, 121] d2024 []
      = (some { hash := "h1", size := 5, date := d2024, path := "p1.jpg" }, "hash") :=
  C2_hash_tier_authoritative.1 (AddHash [] "h1" 5 d2024 "p1.jpg") "h1"
    { hash := "h1", size := 5, date := d2024, path := "p1.jpg" } 99 [120, 121] d2024 []
    (C2_hash_tier_authoritative.2.1 [] "h1" 5 d2024 "p1.jpg")

/-- C3 (counterexample): on a JPEG whose APP1/Exif payload's first maximal
run of length ≥ 10 with a digit starts with a Cyrillic-range byte, the
claim's reading returns that whole run, but the scanner returns only its
tail from the first ASCII alphanumeric — the claim as stated is false. -/
theorem C3_counterexample :
    cexBuffer.take 2 = [0xFF, 0xD8] ∧
    claimScan (exifHeader ++ cyrRun ++ [0, 0, 0, 0, 0]) = cyrRun ∧
    extractUserCommentFromEXIF cexBuffer = [66, 67, 49, 50, 51, 52, 53, 54, 55, 56] ∧
    cyrRun ≠ [66, 67, 49, 50, 51, 52, 53, 54, 55, 56] :=
  ⟨by decide, cexPayload_claimScan, cexBuffer_eval, by decide⟩

/-- C3 (amended): the scanner only considers runs that begin at an ASCII
alphanumeric byte (Cyrillic-range bytes may continue but never start a run)
and whose start index lies below `len-10` (phase 1) resp. `len-8`
(phase 2), resuming one byte past each rejected run; phase 1 returns the
run at the least such position with length ≥ 10 and a digit; otherwise
phase 2 rescans with window `[8, 10)`, pure ASCII alphanumeric, with a
digit; else empty.  In particular the buffer embedding "ABC1234567" yields
exactly that run. -/
theorem C3_scanner_amended :
    (∀ s : List Nat, findUserComment s = findUserCommentSpec s) ∧
    extractUserCommentFromEXIF demoBuffer = abcRun :=
  ⟨findUserComment_eq_spec, demoBuffer_eval⟩

/-- C4: starting from the empty index, after any sequence of AddPhoto calls
every bucket read through GetPhotosByCounter is sorted by capture timestamp
descending and contains no two records with the same relative path. -/
theorem C4_bucket_sorted_and_path_distinct (ops : List AddOp) (ident : RuneStr) :
    sortedByDateDesc (GetPhotosByCounter (applyAdds ops []) ident) ∧
    pathsDistinct (GetPhotosByCounter (applyAdds ops []) ident) := by
  have h := applyAdds_inv ops [] IndexInv_empty
  exact ⟨(h (NormalizeCounterNumber ident)).1, (h (NormalizeCounterNumber ident)).2⟩

theorem load_save_photo (now : DateTime) (p : PhotoInfo) (h : ValidDate p.date) :
    loadPhoto now (savePhoto p) = p := by
  obtain ⟨pa, fu, da, si, ha, uc⟩ := p
  unfold loadPhoto savePhoto
  dsimp only
  rw [parse_format_roundtrip da h]
  by_cases huc : uc = []
  · subst huc
    simp
  · rw [if_neg huc]
    simp

/-- C5: saving the index and reloading it reproduces every bucket exactly
(same records, fields and ordering) whenever all stored dates are
well-formed RFC3339-representable date-times. -/
theorem C5_save_load_roundtrip (idx : Index) (now : DateTime)
    (h : ∀ b ∈ idx, ∀ p ∈ b.2, ValidDate p.date) :
    loadIndexData now (saveIndexData idx) = idx := by
  unfold loadIndexData saveIndexData
  rw [List.map_map]
  have hcong : ∀ b ∈ idx,
      ((fun b => (b.1, List.map (loadPhoto now) b.2))
        ∘ fun b => (b.1, List.map savePhoto b.2)) b = (fun b => b) b := by
    intro b hb
    dsimp only [Function.comp]
    rw [List.map_map]
    have hp : ∀ p ∈ b.2, (loadPhoto now ∘ savePhoto) p = (fun p => p) p := by
      intro p hp
      exact load_save_photo now p (h b hb p hp)
    rw [List.map_congr_left hp]
    simp
  rw [List.map_congr_left hcong]
  simp

theorem C5_save_load_roundtrip_witness :
    loadIndexData { year := 2025, month := 6, day := 1, hour := 0, minute := 0, second := 0 }
      (saveIndexData w5Index) = w5Index :=
  C5_save_load_roundtrip w5Index _ (by decide)

/-- C6: when the record is genuinely new but persisting fails, AddPhoto
reports the error yet the record stays in the in-memory bucket, so a
subsequent GetPhotosByCounter still returns it. -/
theorem C6_persist_failure_keeps_memory (idx : Index) (counter : RuneStr)
    (relPath fullPath : String) (date : DateTime) (size : Int) (hash : String)
    (userComment : RuneStr)
    (hfresh : (indexGet idx (NormalizeCounterNumber counter)).any
        (fun p => p.path = relPath) = false) :
    (AddPhoto idx false counter relPath fullPath date size hash userComment).2
      = some "failed to save index" ∧
    { path := relPath, fullPath := fullPath, date := date, size := size, hash := hash,
        userComment := userComment } ∈
      GetPhotosByCounter
        (AddPhoto idx false counter relPath fullPath date size hash userComment).1
        counter := by
  unfold AddPhoto
  simp only [hfresh, Bool.false_eq_true, if_false]
  constructor
  · trivial
  · unfold GetPhotosByCounter
    rw [indexGet_indexSet, if_pos rfl]
    refine (List.Perm.mem_iff (exchangeSort_perm _ _ (le_refl _))).mpr ?_
    exact List.mem_append_right _ (by simp)

theorem C6_persist_failure_keeps_memory_witness :
    (AddPhoto [] false [120] "a.jpg" "/b/a.jpg" d2024 5 "h" []).2
      = some "failed to save index" ∧
    { path := "a.jpg", fullPath := "/b/a.jpg", date := d2024, size := 5, hash := "h",
        userComment := [] } ∈
      GetPhotosByCounter (AddPhoto [] false [120] "a.jpg" "/b/a.jpg" d2024 5 "h" []).1
        [120] :=
  C6_persist_failure_keeps_memory [] [120] "a.jpg" "/b/a.jpg" d2024 5 "h" [] (by decide)

theorem storeUpdate_unknown (m : SessionMap) (t : String) (f : Session → Session)
    (now : Int) (h : storeGet m t = none) : storeUpdate m t f now = (m, false) := by
  unfold storeUpdate
  rw [h]

/-- C7: a missing token, a missing photo payload or an unknown token makes
SyncHandler (and InitHandler, for its error cases) answer without touching
the session map, the hash table or the index, and each such operation
reports the error to the caller: the whole result is the untouched state
paired with the corresponding error response. -/
theorem C7_client_errors_leave_state (env : SyncEnv) (st : ServerState)
    (r : SyncRequest) (token : String) (body : Option InitRequest) (now : Int) :
    ((r.token = "" ∨ storeGet st.sessions r.token = none ∨ r.photo = none) →
      (syncHandler env st r).1 = st) ∧
    ((token = "" ∨ body = none ∨ storeGet st.sessions token = none) →
      (initHandler st token body now).1 = st) ∧
    (r.token = "" →
      syncHandler env st r = (st, .badRequest "token is required")) ∧
    (r.token ≠ "" → storeGet st.sessions r.token = none →
      syncHandler env st r = (st, .notFound "session not found")) ∧
    (∀ s, r.token ≠ "" → storeGet st.sessions r.token = some s → r.photo = none →
      syncHandler env st r = (st, .badRequest "photo file is required")) ∧
    (token = "" →
      initHandler st token body now = (st, .badRequest "token is required")) ∧
    (token ≠ "" → body = none →
      initHandler st token body now = (st, .badRequest "invalid body")) ∧
    (token ≠ "" → body ≠ none → storeGet st.sessions token = none →
      initHandler st token body now = (st, .notFound "session not found")) := by
  refine ⟨?_, ?_, ?_, ?_, ?_, ?_, ?_, ?_⟩
  · intro h
    unfold syncHandler
    by_cases ht : r.token = ""
    · rw [if_pos ht]
    · rw [if_neg ht]
      rcases h with h | h | h
      · exact absurd h ht
      · rw [h]
      · cases hg : storeGet st.sessions r.token with
        | none => rfl
        | some s => rw [h]
  · intro h
    unfold initHandler
    by_cases ht : token = ""
    · rw [if_pos ht]
    · rw [if_neg ht]
      rcases h with h | h | h
      · exact absurd h ht
      · rw [h]
      · cases hb : body with
        | none => rfl
        | some req =>
          dsimp only
          rw [storeUpdate_unknown st.sessions token (initUpdater req.total now) now h]
          simp
  · intro h
    unfold syncHandler
    rw [if_pos h]
  · intro ht h
    unfold syncHandler
    rw [if_neg ht, h]
  · intro s ht hs hp
    unfold syncHandler
    rw [if_neg ht, hs]
    dsimp only
    rw [hp]
  · intro h
    unfold initHandler
    rw [if_pos h]
  · intro ht hb
    unfold initHandler
    rw [if_neg ht, hb]
  · intro ht hb hs
    unfold initHandler
    rw [if_neg ht]
    cases hbody : body with
    | none => exact absurd hbody hb
    | some req =>
      dsimp only
      rw [storeUpdate_unknown st.sessions token (initUpdater req.total now) now hs]
      simp

theorem C7_client_errors_leave_state_witness :
    syncHandler c1Env w7State w7Request
      = (w7State, .badRequest "token is required") ∧
    syncHandler c1Env w7State w7RequestUnknown
      = (w7State, .notFound "session not found") ∧
    syncHandler c1Env w7State w7RequestNoPhoto
      = (w7State, .badRequest "photo file is required") ∧
    initHandler w7State "" none 5 = (w7State, .badRequest "token is required") ∧
    initHandler w7State "u" none 5 = (w7State, .badRequest "invalid body") ∧
    initHandler w7State "u" (some { total := 3 }) 5
      = (w7State, .notFound "session not found") ∧
    (syncHandler c1Env w7State w7Request).1 = w7State ∧
    (initHandler w7State "" none 5).1 = w7State :=
  ⟨(C7_client_errors_leave_state c1Env w7State w7Request "" none 5).2.2.1 rfl,
   (C7_client_errors_leave_state c1Env w7State w7RequestUnknown "" none 5).2.2.2.1
     (by decide) rfl,
   (C7_client_errors_leave_state c1Env w7State w7RequestNoPhoto "" none 5).2.2.2.2.1
     c1Session (by decide) rfl rfl,
   (C7_client_errors_leave_state c1Env w7State w7Request "" none 5).2.2.2.2.2.1 rfl,
   (C7_client_errors_leave_state c1Env w7State w7Request "u" none 5).2.2.2.2.2.2.1
     (by decide) rfl,
   (C7_client_errors_leave_state c1Env w7State w7Request "u" (some { total := 3 }) 5)
     |>.2.2.2.2.2.2.2 (by decide) (by decide) rfl,
   (C7_client_errors_leave_state c1Env w7State w7Request "" none 5).1 (Or.inl rfl),
   (C7_client_errors_leave_state c1Env w7State w7Request "" none 5).2.1 (Or.inl rfl)⟩

/-- C8: NormalizeCounterNumber is idempotent, and any two identifiers that
agree after erasing punctuation/separators and lower-casing (i.e. differ
only by case or punctuation) collapse to the same bucket key. -/
theorem C8_normalize_idem_and_collapse :
    (∀ x : RuneStr, NormalizeCounterNumber (NormalizeCounterNumber x)
        = NormalizeCounterNumber x) ∧
    (∀ x y : RuneStr,
        (x.filter (fun c => !isPunctSep c)).map toLowerRune
          = (y.filter (fun c => !isPunctSep c)).map toLowerRune →
        NormalizeCounterNumber x = NormalizeCounterNumber y) := by
  refine ⟨normalize_idem, ?_⟩
  intro x y h
  rw [normalize_drops_punct x, normalize_drops_punct y]
  unfold NormalizeCounterNumber
  rw [h]

theorem C8_normalize_idem_and_collapse_witness :
    NormalizeCounterNumber [65, 66, 45, 49] = NormalizeCounterNumber [97, 32, 98, 49] :=
  C8_normalize_idem_and_collapse.2 [65, 66, 45, 49] [97, 32, 98, 49] (by decide)

/-- C9: progress is 0 for `total = 0` and `(uploaded+skipped)/total*100`
otherwise; the remaining-time estimate is 0 whenever `uploaded = 0`, no
matter how many duplicates were recorded or how much time elapsed. -/
theorem C9_progress_and_eta (s : Session) (elapsed : ℚ) :
    (s.total = 0 → GetProgress s = 0) ∧
    (s.total ≠ 0 → GetProgress s
        = ((s.uploaded + s.skipped : Int) : ℚ) / ((s.total : Int) : ℚ) * 100) ∧
    (s.uploaded = 0 → GetEstimatedTimeRemaining s elapsed = 0) := by
  refine ⟨?_, ?_, ?_⟩
  · intro h
    unfold GetProgress
    rw [if_pos h]
  · intro h
    unfold GetProgress
    rw [if_neg h]
  · intro h
    unfold GetEstimatedTimeRemaining
    rw [if_pos h]

theorem C9_progress_and_eta_witness :
    GetProgress w9a = 0 ∧ GetProgress w9b = 50 ∧
    GetEstimatedTimeRemaining w9c 1000 = 0 := by
  refine ⟨(C9_progress_and_eta w9a 0).1 (by decide), ?_,
    (C9_progress_and_eta w9c 1000).2.2 (by decide)⟩
  rw [(C9_progress_and_eta w9b 0).2.1 (by decide)]
  norm_num [w9b]

/-- C10: GetPhotosByCounter normalizes its argument, so reading with any
identifier and reading with its normal form return the same bucket. -/
theorem C10_reads_normalize (idx : Index) (x : RuneStr) :
    GetPhotosByCounter idx x = GetPhotosByCounter idx (NormalizeCounterNumber x) := by
  unfold GetPhotosByCounter
  rw [normalize_idem]

end PhotoSync
